import Mathlib

/-! Verification development for `scripts/test.c`.

The translation unit defines three functions: `add`, `print_result` and `main`.
Values of C type `int` are modelled as mathematical integers together with the
32-bit two's-complement range.  The signed addition of `add` is given twice:
`IsoC.add` is the result the C language defines, which exists only when the
mathematical sum is an int; `add` is the value a two's-complement execution
computes, reduced into the int range by `wrapInt`, and agrees with `IsoC.add`
wherever the latter has a result.  Standard output is modelled as a `String`
that every `printf` call extends on the right.

Four places of `main` are not determined by the source text (each carries an
`// Error:` comment in the source).  The values that flow out of those places
are collected in the structure `Unknowns` and are parameters of the model.
-/

set_option linter.unusedVariables false

namespace TestC

/-! ## Machine integers -/

/-- Smallest value of the C type `int` (32 bit). -/
def INT_MIN : Int := -2147483648

/-- Largest value of the C type `int` (32 bit). -/
def INT_MAX : Int := 2147483647

/-- The integer `x` is a value of the C type `int`. -/
def InIntRange (x : Int) : Prop := INT_MIN ≤ x ∧ x ≤ INT_MAX

instance (x : Int) : Decidable (InIntRange x) := by
  unfold InIntRange
  exact inferInstance

/-- Reduction of a mathematical integer to the `int` with the same residue
modulo `2^32` (two's-complement wrap-around). -/
def wrapInt (x : Int) : Int := (x + 2147483648) % 4294967296 - 2147483648

/-! ## Formatted output -/

/-- The character of the decimal digit `d`. -/
def digitChar (d : Nat) : Char := Char.ofNat (48 + d)

/-- Decimal digits of `n`, most significant first; `fuel` bounds the number of
digits produced. -/
def natDigits : Nat → Nat → List Char
  | 0, _ => []
  | fuel + 1, n =>
    if n < 10 then [digitChar n]
    else natDigits fuel (n / 10) ++ [digitChar (n % 10)]

/-- Text produced by the conversion `%d` for a non-negative value. -/
def natDecimal (n : Nat) : List Char := natDigits (n + 1) n

/-- Text produced by the `printf` conversion `%d`: the decimal numeral of `v`,
with a leading minus sign for negative values. -/
def decimal : Int → String
  | Int.ofNat n => String.mk (natDecimal n)
  | Int.negSucc n => String.mk ('-' :: natDecimal (n + 1))

/-- Value of a sequence of decimal digit characters. -/
def readNat (cs : List Char) : Nat :=
  cs.foldl (fun acc c => 10 * acc + (c.toNat - 48)) 0

/-- Value of a decimal numeral with an optional leading minus sign. -/
def readDecimal (s : String) : Int :=
  match s.data with
  | [] => 0
  | c :: cs => if c = '-' then -((readNat cs : Nat) : Int) else ((readNat (c :: cs) : Nat) : Int)

/-! ## The functions of the translation unit -/

/-- Source: `int add(int a, int b) { return a + b; }`, as computed by a
two's-complement execution: the sum reduced modulo `2^32`.  Where the
mathematical sum is not an int the C language defines no result (see
`IsoC.add`); the value given here is the wrap-around one. -/
def add (a b : Int) : Int := wrapInt (a + b)

namespace IsoC

/-- Source: `int add(int a, int b) { return a + b; }`, with the result the C
language defines for the signed addition `a + b`: the mathematical sum when it
is an int, and no result (`none`, undefined behaviour) when it is not. -/
def add (a b : Int) : Option Int :=
  if InIntRange (a + b) then some (a + b) else none

end IsoC

/-- Source: `void print_result(int result) { printf("The result is: %d\n", result); }`.
The argument `out` is standard output before the call, the value is standard
output after it. -/
def print_result (result : Int) (out : String) : String :=
  out ++ "The result is: " ++ decimal result ++ "\n"

/-- Values that the source text of `main` leaves undetermined. -/
structure Unknowns where
  /-- Value held by `num2` after `int num2 = "ten";`. -/
  num2 : Int
  /-- Value received by the parameter `result` in the call `print_result();`. -/
  arg : Int
  /-- Value the counter `i` is compared with in `i < "sum"`. -/
  bound : Int
  /-- Value read through `ptr` after `int *ptr = &num3;`. -/
  num3 : Int

/-- Source: `int sum = add(num1, num2);` with `int num1 = 5;`. -/
def mainSum (u : Unknowns) : Int :=
  let num1 : Int := 5
  let num2 : Int := u.num2
  add num1 num2

/-- Source: the conditional statement of `main`,
`if (sum > 10) { print_result(...); } else { printf("Sum is less than or equal to 10\n"); }`. -/
def mainConditional (sum arg : Int) (out : String) : String :=
  if sum > 10 then print_result arg out
  else out ++ "Sum is less than or equal to 10\n"

/-- Source: `for (int i = 0; i < n; i++) { printf("%d ", i); }`, started at
counter value `i` with standard output `out`.  The last argument counts the
executions of the loop body.  The result is `none` when `fuel` loop tests were
not enough to leave the loop. -/
def forLoop (n : Int) : Nat → Int → String → Nat → Option (String × Nat)
  | 0, _, _, _ => none
  | fuel + 1, i, out, iters =>
    if i < n then forLoop n fuel (wrapInt (i + 1)) (out ++ decimal i ++ " ") (iters + 1)
    else some (out, iters)

/-- Source: the loop statement of `main` followed by `printf("\n");`. -/
def mainLoop (n : Int) (fuel : Nat) (out : String) : Option (String × Nat) :=
  match forLoop n fuel 0 out 0 with
  | none => none
  | some (out1, iters) => some (out1 ++ "\n", iters)

/-- Source: `int main(int argc, char *argv[])`.  The result is standard output at
exit together with the return value, or `none` when `fuel` loop tests were not
enough for the counting loop.  The values the source leaves undetermined are
taken from `u`. -/
def main (u : Unknowns) (fuel : Nat) (argc : Int) (argv : List String) :
    Option (String × Int) :=
  let sum := mainSum u
  let out := mainConditional sum u.arg ""
  match mainLoop u.bound fuel out with
  | none => none
  | some (out1, _) =>
    let out2 := out1 ++ "Sum via pointer: " ++ decimal u.num3 ++ "\n"
    some (out2, 0)

/-- Text printed by the loop body for the `k` counter values starting at `i`. -/
def counterText (i : Int) : Nat → String
  | 0 => ""
  | k + 1 => decimal i ++ " " ++ counterText (i + 1) k

/-! ## Machine integers: auxiliary facts -/

theorem wrapInt_of_inRange (x : Int) (h : InIntRange x) : wrapInt x = x := by
  unfold InIntRange INT_MIN INT_MAX at h
  unfold wrapInt
  omega

theorem wrapInt_inRange (x : Int) : InIntRange (wrapInt x) := by
  unfold InIntRange INT_MIN INT_MAX wrapInt
  omega

theorem wrapInt_congr (x : Int) : (wrapInt x - x) % 4294967296 = 0 := by
  unfold wrapInt
  omega

/-! ## `add` -/

/-- C1: for ints `a` and `b` whose mathematical sum lies in the int range,
`add a b` is exactly `a + b`. -/
theorem add_exact (a b : Int) (_ha : InIntRange a) (_hb : InIntRange b)
    (hs : InIntRange (a + b)) : add a b = a + b := by
  unfold add
  exact wrapInt_of_inRange (a + b) hs

theorem add_exact_witness :
    InIntRange 5 ∧ InIntRange 10 ∧ InIntRange (5 + 10) ∧ add 5 10 = 5 + 10 :=
  ⟨by decide, by decide, by decide, add_exact 5 10 (by decide) (by decide) (by decide)⟩

theorem wrapInt_eq_self_iff (x : Int) : wrapInt x = x ↔ InIntRange x := by
  unfold InIntRange INT_MIN INT_MAX wrapInt
  omega

/-- C2, amended: for every pair of ints, `add` yields a result exactly when the
mathematical sum lies in the int range; the result is then that sum, it is an
int, and it is the value the wrap-around execution computes.  Where the sum
falls outside the int range no result is defined, and the wrap-around value
differs from the sum. -/
theorem add_defined_iff (a b : Int) (_ha : InIntRange a) (_hb : InIntRange b) :
    ((∃ r : Int, IsoC.add a b = some r) ↔ InIntRange (a + b)) ∧
      (∀ r : Int, IsoC.add a b = some r → r = a + b ∧ InIntRange r ∧ add a b = r) ∧
      (IsoC.add a b = none ↔ add a b ≠ a + b) := by
  have hw := wrapInt_eq_self_iff (a + b)
  by_cases hs : InIntRange (a + b)
  · have hv : IsoC.add a b = some (a + b) := by
      unfold IsoC.add
      rw [if_pos hs]
    have hadd : add a b = a + b := hw.mpr hs
    refine ⟨⟨fun _ => hs, fun _ => ⟨a + b, hv⟩⟩, ?_, ?_⟩
    · intro r hr
      rw [hv] at hr
      have hr2 : a + b = r := Option.some.inj hr
      rw [← hr2]
      exact ⟨rfl, hs, hadd⟩
    · rw [hv]
      constructor
      · intro h
        exact absurd h (Option.some_ne_none (a + b))
      · intro h
        exact absurd hadd h
  · have hv : IsoC.add a b = none := by
      unfold IsoC.add
      rw [if_neg hs]
    have hadd : add a b ≠ a + b := fun h => hs (hw.mp h)
    refine ⟨⟨?_, fun h => absurd h hs⟩, ?_, ?_⟩
    · rintro ⟨r, hr⟩
      rw [hv] at hr
      exact absurd hr (Option.some_ne_none r).symm
    · intro r hr
      rw [hv] at hr
      exact absurd hr (Option.some_ne_none r).symm
    · exact ⟨fun _ => hadd, fun _ => hv⟩

theorem add_defined_iff_witness :
    (InIntRange 5 ∧ InIntRange 10 ∧
        (((∃ r : Int, IsoC.add 5 10 = some r) ↔ InIntRange (5 + 10)) ∧
          (∀ r : Int, IsoC.add 5 10 = some r → r = 5 + 10 ∧ InIntRange r ∧ add 5 10 = r) ∧
          (IsoC.add 5 10 = none ↔ add 5 10 ≠ 5 + 10))) ∧
      IsoC.add 5 10 = some 15 ∧
      (IsoC.add 2147483647 1 = none ↔ add 2147483647 1 ≠ 2147483647 + 1) :=
  ⟨⟨by decide, by decide, add_defined_iff 5 10 (by decide) (by decide)⟩, by decide,
    (add_defined_iff 2147483647 1 (by decide) (by decide)).2.2⟩

/-- C2, as stated, fails at `a = INT_MAX`, `b = 1`: both are ints, their sum is
not, and the addition has no defined result. -/
theorem add_overflow_undefined :
    InIntRange 2147483647 ∧ InIntRange 1 ∧ ¬ InIntRange (2147483647 + 1) ∧
      IsoC.add 2147483647 1 = none ∧ IsoC.add INT_MAX 1 = none := by
  decide

/-- C10: on ints, `add` is commutative and has `0` as left and right identity,
also where the sum wraps modulo `2^32`. -/
theorem add_comm_identity (a b : Int) (ha : InIntRange a) (hb : InIntRange b) :
    add a b = add b a ∧ add a 0 = a ∧ add 0 b = b := by
  refine ⟨?_, ?_, ?_⟩
  · unfold add
    rw [Int.add_comm]
  · unfold add
    rw [Int.add_zero]
    exact wrapInt_of_inRange a ha
  · unfold add
    rw [Int.zero_add]
    exact wrapInt_of_inRange b hb

theorem add_comm_identity_witness :
    InIntRange 2147483647 ∧ InIntRange 1 ∧ ¬ InIntRange (2147483647 + 1) ∧
      (add 2147483647 1 = add 1 2147483647 ∧ add 2147483647 0 = 2147483647 ∧ add 0 1 = 1) :=
  ⟨by decide, by decide, by decide, add_comm_identity 2147483647 1 (by decide) (by decide)⟩

/-! ## Formatted output: auxiliary facts -/

theorem digitChar_toNat (d : Nat) (h : d < 10) : (digitChar d).toNat - 48 = d := by
  interval_cases d <;> decide

theorem digitChar_ne_minus (d : Nat) (h : d < 10) : digitChar d ≠ '-' := by
  interval_cases d <;> decide

theorem readNat_snoc (cs : List Char) (c : Char) :
    readNat (cs ++ [c]) = 10 * readNat cs + (c.toNat - 48) := by
  simp [readNat, List.foldl_append]

theorem readNat_natDigits : ∀ (fuel n : Nat), n < fuel → readNat (natDigits fuel n) = n := by
  intro fuel
  induction fuel with
  | zero => intro n h; omega
  | succ fuel ih =>
    intro n h
    unfold natDigits
    split
    · next hlt =>
      have hd := digitChar_toNat n hlt
      simp [readNat, hd]
    · next hge =>
      have hq : n / 10 < fuel := by omega
      have hd := digitChar_toNat (n % 10) (Nat.mod_lt n (by decide))
      rw [readNat_snoc, ih (n / 10) hq, hd]
      omega

theorem natDigits_head : ∀ (fuel n : Nat), n < fuel →
    ∃ c cs, natDigits fuel n = c :: cs ∧ c ≠ '-' := by
  intro fuel
  induction fuel with
  | zero => intro n h; omega
  | succ fuel ih =>
    intro n h
    unfold natDigits
    split
    · next hlt => exact ⟨digitChar n, [], rfl, digitChar_ne_minus n hlt⟩
    · next hge =>
      have hq : n / 10 < fuel := by omega
      obtain ⟨c, cs, hc, hne⟩ := ih (n / 10) hq
      exact ⟨c, cs ++ [digitChar (n % 10)], by rw [hc]; rfl, hne⟩

theorem readDecimal_decimal (v : Int) : readDecimal (decimal v) = v := by
  cases v with
  | ofNat n =>
    obtain ⟨c, cs, hc, hne⟩ := natDigits_head (n + 1) n (Nat.lt_succ_self n)
    have hr := readNat_natDigits (n + 1) n (Nat.lt_succ_self n)
    have hdata : (decimal (Int.ofNat n)).data = c :: cs := hc
    unfold readDecimal
    rw [hdata]
    simp only [hne, if_false]
    rw [← hc, hr]
    rfl
  | negSucc n =>
    have hr := readNat_natDigits (n + 1 + 1) (n + 1) (Nat.lt_succ_self (n + 1))
    have hdata : (decimal (Int.negSucc n)).data = '-' :: natDigits (n + 1 + 1) (n + 1) := rfl
    unfold readDecimal
    rw [hdata]
    simp only [if_true]
    rw [hr]
    rfl

/-! ## `print_result` -/

/-- C4: for every value `v`, negative values included, `print_result v` extends
standard output by exactly the text `The result is: `, the decimal numeral of
`v` and a newline; the numeral printed denotes `v`, and it starts with a minus
sign exactly for negative `v`. -/
theorem print_result_appends (v : Int) (out : String) :
    print_result v out = out ++ ("The result is: " ++ decimal v ++ "\n") ∧
      (print_result v out).data =
        out.data ++ ("The result is: ".data ++ ((decimal v).data ++ ['\n'])) ∧
      readDecimal (decimal v) = v ∧
      (v < 0 ↔ (decimal v).data.head? = some '-') := by
  refine ⟨?_, ?_, readDecimal_decimal v, ?_⟩
  · unfold print_result
    rw [String.append_assoc, String.append_assoc, ← String.append_assoc "The result is: "]
  · unfold print_result
    simp only [String.data_append, List.append_assoc]
  · cases v with
    | ofNat n =>
      obtain ⟨c, cs, hc, hne⟩ := natDigits_head (n + 1) n (Nat.lt_succ_self n)
      have hdata : (decimal (Int.ofNat n)).data = c :: cs := hc
      rw [hdata]
      constructor
      · intro h
        have h0 : (0 : Int) ≤ Int.ofNat n := Int.ofNat_nonneg n
        omega
      · intro h
        simp only [List.head?_cons, Option.some.injEq] at h
        exact absurd h hne
    | negSucc n =>
      constructor
      · intro _
        rfl
      · intro _
        exact Int.negSucc_lt_zero n

/-! ## The conditional statement of `main` -/

theorem print_result_ne_le_message (arg : Int) (out : String) :
    print_result arg out ≠ out ++ "Sum is less than or equal to 10\n" := by
  intro h
  have hd := congrArg String.data h
  unfold print_result at hd
  simp only [String.data_append, List.append_assoc] at hd
  have hc := List.append_cancel_left hd
  simp only [List.cons_append, List.cons.injEq] at hc
  exact absurd hc.1 (by decide)

/-- C5: for every value of `sum` the conditional statement of `main` emits
exactly one of the two messages: the result message when `sum > 10`, the line
`Sum is less than or equal to 10` when `sum <= 10`, the boundary `sum = 10`
included; the two outputs differ, so it never emits both and never neither. -/
theorem mainConditional_exactly_one (sum arg : Int) (out : String) :
    ((10 < sum ∧ mainConditional sum arg out = print_result arg out ∧
        mainConditional sum arg out ≠ out ++ "Sum is less than or equal to 10\n") ∨
      (sum ≤ 10 ∧ mainConditional sum arg out = out ++ "Sum is less than or equal to 10\n" ∧
        mainConditional sum arg out ≠ print_result arg out)) ∧
      mainConditional 10 arg out = out ++ "Sum is less than or equal to 10\n" ∧
      mainConditional sum arg out ≠ out := by
  have hne := print_result_ne_le_message arg out
  have hgrow : ∀ t : String, t.data ≠ [] → out ++ t ≠ out := by
    intro t ht h
    have hd := congrArg String.data h
    simp only [String.data_append] at hd
    exact ht (List.append_right_eq_self.mp hd)
  refine ⟨?_, ?_, ?_⟩
  · by_cases h : 10 < sum
    · left
      have hm : mainConditional sum arg out = print_result arg out := by
        unfold mainConditional
        rw [if_pos h]
      exact ⟨h, hm, by rw [hm]; exact hne⟩
    · right
      have hm : mainConditional sum arg out = out ++ "Sum is less than or equal to 10\n" := by
        unfold mainConditional
        rw [if_neg h]
      exact ⟨by omega, hm, by rw [hm]; exact fun e => hne e.symm⟩
  · unfold mainConditional
    rw [if_neg (by decide)]
  · unfold mainConditional
    split
    · unfold print_result
      rw [String.append_assoc, String.append_assoc]
      apply hgrow
      simp only [String.data_append]
      intro hnil
      rw [List.cons_append] at hnil
      exact List.cons_ne_nil _ _ hnil
    · apply hgrow
      decide

/-- C3: with `num1 = 5` and `num2 = 10`, `add 5 10` is `15`; as `15 > 10` the
conditional of `main` takes the result branch, and with `print_result` applied
to the sum the output of that branch is the line `The result is: 15`. -/
theorem main_result_branch (u : Unknowns) (h2 : u.num2 = 10) (ha : u.arg = mainSum u) :
    add 5 10 = 15 ∧ mainSum u = 15 ∧ 10 < mainSum u ∧
      mainConditional (mainSum u) u.arg "" = print_result (mainSum u) "" ∧
      mainConditional (mainSum u) u.arg "" = "The result is: 15\n" := by
  have hs : mainSum u = 15 := by
    unfold mainSum
    rw [h2]
    decide
  have hc : mainConditional (mainSum u) u.arg "" = print_result (mainSum u) "" := by
    rw [ha]
    unfold mainConditional
    rw [if_pos (by rw [hs]; decide)]
  refine ⟨by decide, hs, by rw [hs]; decide, hc, ?_⟩
  rw [hc, hs]
  decide

theorem main_result_branch_witness :
    add 5 10 = 15 ∧ mainSum ⟨10, 15, 15, 0⟩ = 15 ∧ 10 < mainSum ⟨10, 15, 15, 0⟩ ∧
      mainConditional (mainSum ⟨10, 15, 15, 0⟩) (Unknowns.arg ⟨10, 15, 15, 0⟩) "" =
        print_result (mainSum ⟨10, 15, 15, 0⟩) "" ∧
      mainConditional (mainSum ⟨10, 15, 15, 0⟩) (Unknowns.arg ⟨10, 15, 15, 0⟩) "" =
        "The result is: 15\n" :=
  main_result_branch ⟨10, 15, 15, 0⟩ rfl (by decide)

/-! ## The counting loop of `main` -/

theorem forLoop_exit (n : Int) (fuel : Nat) (i : Int) (out : String) (c : Nat)
    (h : n ≤ i) : forLoop n (fuel + 1) i out c = some (out, c) := by
  unfold forLoop
  rw [if_neg (by omega)]

theorem forLoop_run (n : Int) (hn : n ≤ INT_MAX) :
    ∀ (k : Nat) (i : Int) (fuel : Nat) (out : String) (c : Nat),
      INT_MIN ≤ i → i + k = n → k < fuel →
      forLoop n fuel i out c = some (out ++ counterText i k, c + k) := by
  intro k
  induction k with
  | zero =>
    intro i fuel out c _ hik hf
    obtain ⟨f, rfl⟩ : ∃ f, fuel = f + 1 := ⟨fuel - 1, by omega⟩
    rw [forLoop_exit n f i out c (by omega)]
    simp [counterText]
  | succ k ih =>
    intro i fuel out c hi hik hf
    obtain ⟨f, rfl⟩ : ∃ f, fuel = f + 1 := ⟨fuel - 1, by omega⟩
    have hlt : i < n := by omega
    have hw : wrapInt (i + 1) = i + 1 := by
      apply wrapInt_of_inRange
      unfold InIntRange
      unfold INT_MAX at hn
      unfold INT_MIN at hi
      unfold INT_MIN INT_MAX
      omega
    unfold forLoop
    rw [if_pos hlt, hw, ih (i + 1) f _ _ (by unfold INT_MIN at *; omega) (by omega) (by omega)]
    simp only [counterText, String.append_assoc]
    congr 2
    omega

theorem forLoop_total (n : Int) (hn : n ≤ INT_MAX) (fuel : Nat)
    (hf : (max n 0).toNat < fuel) (out : String) :
    ∃ text, forLoop n fuel 0 out 0 = some (text, (max n 0).toNat) := by
  obtain ⟨f, rfl⟩ : ∃ f, fuel = f + 1 := ⟨fuel - 1, by omega⟩
  by_cases h : n ≤ 0
  · refine ⟨out, ?_⟩
    rw [forLoop_exit n f 0 out 0 h, max_eq_right h]
    rfl
  · have hmax : max n 0 = n := max_eq_left (by omega)
    rw [hmax] at hf ⊢
    have hrun := forLoop_run n hn n.toNat 0 (f + 1) out 0 (by decide) (by omega) hf
    exact ⟨_, by rw [hrun, Nat.zero_add]⟩

theorem join_cons (x : String) (xs : List String) :
    String.join (x :: xs) = x ++ String.join xs := by
  apply String.ext
  simp [String.join_eq]

theorem counterText_eq_join : ∀ (k i : Nat),
    counterText (i : Int) k =
      String.join ((List.range' i k).map fun (j : Nat) => decimal (j : Int) ++ " ") := by
  intro k
  induction k with
  | zero => intro i; rfl
  | succ k ih =>
    intro i
    have h : counterText ((i : Int) + 1) k =
        String.join ((List.range' (i + 1) k).map fun (j : Nat) => decimal (j : Int) ++ " ") := by
      exact_mod_cast ih (i + 1)
    simp only [counterText, List.range', List.map_cons, join_cons]
    rw [h]

/-- C6, amended: for every int loop bound `n >= 0` the counting loop leaves, with
`n + 1` loop tests or more, and has printed the decimal numerals of
`0, 1, ..., n-1` in ascending order, each followed by one space; for the bound
`15` the text printed is `0 1 2 3 4 5 6 7 8 9 10 11 12 13 14 `, ending in a
space. -/
theorem forLoop_prints_counters (n : Int) (h0 : 0 ≤ n) (hn : n ≤ INT_MAX)
    (fuel : Nat) (hf : n.toNat < fuel) (out : String) :
    (forLoop n fuel 0 out 0).map Prod.fst =
        some (out ++ String.join
          ((List.range n.toNat).map fun (j : Nat) => decimal (j : Int) ++ " ")) ∧
      ∀ fuel15 : Nat, 15 < fuel15 →
        (forLoop 15 fuel15 0 "" 0).map Prod.fst =
          some "0 1 2 3 4 5 6 7 8 9 10 11 12 13 14 " := by
  have hrun := forLoop_run n hn n.toNat 0 fuel out 0 (by decide) (by omega) hf
  have hj := counterText_eq_join n.toNat 0
  rw [← List.range_eq_range'] at hj
  constructor
  · rw [hrun, ← hj]
    rfl
  · intro fuel15 h15
    rw [forLoop_run 15 (by decide) 15 0 fuel15 "" 0 (by decide) (by decide) h15]
    rfl

theorem forLoop_prints_counters_witness :
    (forLoop 15 16 0 "" 0).map Prod.fst =
        some ("" ++ String.join
          ((List.range (15 : Int).toNat).map fun (j : Nat) => decimal (j : Int) ++ " ")) ∧
      ∀ fuel15 : Nat, 15 < fuel15 →
        (forLoop 15 fuel15 0 "" 0).map Prod.fst =
          some "0 1 2 3 4 5 6 7 8 9 10 11 12 13 14 " :=
  forLoop_prints_counters 15 (by decide) (by decide) 16 (by decide) ""

/-- C6, as stated, fails at the bound `15`: the text the loop prints ends in a
space and so is not `0 1 2 3 4 5 6 7 8 9 10 11 12 13 14`. -/
theorem forLoop_trailing_space :
    (forLoop 15 16 0 "" 0).map Prod.fst = some "0 1 2 3 4 5 6 7 8 9 10 11 12 13 14 " ∧
      (forLoop 15 16 0 "" 0).map Prod.fst ≠ some "0 1 2 3 4 5 6 7 8 9 10 11 12 13 14" ∧
      (forLoop 1 2 0 "" 0).map Prod.fst = some "0 " := by
  decide

theorem forLoop_starve (n : Int) (hn : n ≤ INT_MAX) :
    ∀ (fuel : Nat) (i : Int) (out : String) (c : Nat),
      INT_MIN ≤ i → i + fuel ≤ n → forLoop n fuel i out c = none := by
  intro fuel
  induction fuel with
  | zero =>
    intro i out c _ _
    rfl
  | succ f ih =>
    intro i out c hi hle
    have hlt : i < n := by omega
    have hw : wrapInt (i + 1) = i + 1 := by
      apply wrapInt_of_inRange
      unfold INT_MAX at hn
      unfold INT_MIN at hi
      unfold InIntRange INT_MIN INT_MAX
      omega
    unfold forLoop
    rw [if_pos hlt, hw]
    exact ih (i + 1) _ _ (by unfold INT_MIN at *; omega) (by omega)

theorem forLoop_result (n : Int) (hn : n ≤ INT_MAX) (fuel : Nat)
    (hf : (max n 0).toNat < fuel) (out : String) :
    forLoop n fuel 0 out 0 =
      some (out ++ counterText 0 (max n 0).toNat, (max n 0).toNat) := by
  by_cases h : n ≤ 0
  · obtain ⟨f, rfl⟩ : ∃ f, fuel = f + 1 := ⟨fuel - 1, by omega⟩
    rw [forLoop_exit n f 0 out 0 h, max_eq_right h]
    simp [counterText]
  · have hmax : max n 0 = n := max_eq_left (by omega)
    rw [hmax] at hf ⊢
    rw [forLoop_run n hn n.toNat 0 fuel out 0 (by decide) (by omega) hf, Nat.zero_add]

/-- C9: for every int bound `n` the counting loop leaves after exactly
`max n 0` executions of its body: given more than `max n 0` loop tests it ends
with the text of the counter values `0, ..., max n 0 - 1` printed and a body
count of `max n 0`, and with `max n 0` loop tests or fewer it has not yet left.
When `n <= 0` it prints no counter value, so the loop statement and the
`printf` after it add only the newline. -/
theorem forLoop_terminates (n : Int) (hn : InIntRange n) (fuel : Nat)
    (hf : (max n 0).toNat < fuel) (out : String) :
    forLoop n fuel 0 out 0 =
        some (out ++ counterText 0 (max n 0).toNat, (max n 0).toNat) ∧
      mainLoop n fuel out =
        some (out ++ counterText 0 (max n 0).toNat ++ "\n", (max n 0).toNat) ∧
      (∀ tests : Nat, tests ≤ (max n 0).toNat → forLoop n tests 0 out 0 = none) ∧
      (n ≤ 0 → forLoop n fuel 0 out 0 = some (out, 0) ∧
        mainLoop n fuel out = some (out ++ "\n", 0)) := by
  have hres := forLoop_result n hn.2 fuel hf out
  refine ⟨hres, ?_, ?_, ?_⟩
  · unfold mainLoop
    rw [hres]
  · intro tests ht
    by_cases h : n ≤ 0
    · rw [max_eq_right h] at ht
      have h0 : tests = 0 := by
        have : (0 : Int).toNat = 0 := rfl
        omega
      rw [h0]
      rfl
    · have hmax : max n 0 = n := max_eq_left (by omega)
      rw [hmax] at ht
      exact forLoop_starve n hn.2 tests 0 out 0 (by decide) (by omega)
  · intro h
    obtain ⟨f, rfl⟩ : ∃ f, fuel = f + 1 := ⟨fuel - 1, by omega⟩
    have hneg := forLoop_exit n f 0 out 0 h
    refine ⟨hneg, ?_⟩
    unfold mainLoop
    rw [hneg]

theorem forLoop_terminates_witness :
    (forLoop 3 4 0 "" 0 =
          some ("" ++ counterText 0 (max (3 : Int) 0).toNat, (max (3 : Int) 0).toNat) ∧
        mainLoop 3 4 "" =
          some ("" ++ counterText 0 (max (3 : Int) 0).toNat ++ "\n", (max (3 : Int) 0).toNat) ∧
        (∀ tests : Nat, tests ≤ (max (3 : Int) 0).toNat → forLoop 3 tests 0 "" 0 = none) ∧
        ((3 : Int) ≤ 0 → forLoop 3 4 0 "" 0 = some ("", 0) ∧
          mainLoop 3 4 "" = some ("" ++ "\n", 0))) ∧
      forLoop 3 4 0 "" 0 = some ("0 1 2 ", 3) ∧
      forLoop 3 3 0 "" 0 = none ∧
      (forLoop (-2) 1 0 "" 0 = some ("", 0) ∧ mainLoop (-2) 1 "" = some ("" ++ "\n", 0)) :=
  ⟨forLoop_terminates 3 (by decide) 4 (by decide) "", by decide, by decide,
    (forLoop_terminates (-2) (by decide) 1 (by decide) "").2.2.2 (by decide)⟩

/-! ## `main` -/

/-- C7: `main` does not use `argc` or `argv`: any two choices of them give the
same result, and with more than `max bound 0` loop tests that result is one
standard output, the same for all arguments, together with the return value
`0`. -/
theorem main_ignores_arguments (u : Unknowns) (hb : InIntRange u.bound) (fuel : Nat)
    (hf : (max u.bound 0).toNat < fuel) :
    (∀ (argc1 argc2 : Int) (argv1 argv2 : List String),
        main u fuel argc1 argv1 = main u fuel argc2 argv2) ∧
      ∃ out : String, ∀ (argc : Int) (argv : List String),
        main u fuel argc argv = some (out, 0) := by
  constructor
  · intro argc1 argc2 argv1 argv2
    rfl
  · obtain ⟨text, ht⟩ :=
      forLoop_total u.bound hb.2 fuel hf (mainConditional (mainSum u) u.arg "")
    refine ⟨text ++ "\n" ++ "Sum via pointer: " ++ decimal u.num3 ++ "\n", ?_⟩
    intro argc argv
    unfold main mainLoop
    simp only [ht]

theorem main_ignores_arguments_witness :
    (∀ (argc1 argc2 : Int) (argv1 argv2 : List String),
        main ⟨10, 15, 15, 7⟩ 16 argc1 argv1 = main ⟨10, 15, 15, 7⟩ 16 argc2 argv2) ∧
      ∃ out : String, ∀ (argc : Int) (argv : List String),
        main ⟨10, 15, 15, 7⟩ 16 argc argv = some (out, 0) :=
  main_ignores_arguments ⟨10, 15, 15, 7⟩ (by decide) 16 (by decide)

end TestC
